import Mathlib

set_option maxHeartbeats 1000000

/- Shallow embedding of two source files of this repository:
   the tail input plugin (package tail, file src/unnamed/part_000) and the
   sqlserver input plugin (src/plugins/inputs/sqlserver/sqlserver.go).
   Go mutable state is passed explicitly; the accumulator is embedded as a
   list of error strings plus a list of metrics; goroutine creation is
   recorded in a spawn list together with the WaitGroup counter. -/

/-- A metric as produced by a parser and enriched by the tail plugin:
a measurement name and a tag list. -/
structure Metric where
  name : String
  tags : List (String × String)
deriving DecidableEq

/-- AddTag of the telegraf metric interface: binds the tag key to the value,
replacing any earlier binding of the same key. -/
def Metric.addTag (m : Metric) (k v : String) : Metric :=
  { m with tags := m.tags.filter (fun p => p.1 != k) ++ [(k, v)] }

/-- A format parser (parsers.Parser).  The dynamic type test
`switch parser.(type) { case *csv.Parser: ... }` of the source is embedded
as the capability flag isCsv; parse is the whole-buffer Parse entry point
and parseLineF is ParseLine, whose nil metric result is embedded as none. -/
structure Parser where
  isCsv : Bool
  parse : String → Except String (List Metric)
  parseLineF : String → Except String (Option Metric)

/-- parseLine of the tail plugin (the Line Parser Adapter): for the csv
format the first line goes through the whole-buffer Parse entry point,
later lines through ParseLine; every other format always uses Parse. -/
def parseLine (parser : Parser) (line : String) (firstLine : Bool) :
    Except String (List Metric) :=
  if parser.isCsv then
    if firstLine then
      parser.parse line
    else
      match parser.parseLineF line with
      | .error e => .error e
      | .ok (some m) => .ok [m]
      | .ok none => .ok []
  else
    parser.parse line

/-- One raw line delivered by the follower (tail.Line): its text and an
optional per-line delivery error. -/
structure TailLine where
  text : String
  err : Option String
deriving DecidableEq

/-- State observable from one consumer task (receiver): the first-line
flag, the errors reported to the accumulator and the metrics forwarded
to it. -/
structure RecvState where
  firstLine : Bool
  errors : List String
  metrics : List Metric
deriving DecidableEq

def initRecvState : RecvState :=
  { firstLine := true, errors := [], metrics := [] }

def tailingErrMsg (f e : String) : String :=
  "error tailing file " ++ f ++ ", Error: " ++ e

def malformedErrMsg (f raw e : String) : String :=
  "malformed log line in " ++ f ++ ": [" ++ raw ++ "], Error: " ++ e

def fatalErrMsg (f e : String) : String :=
  "E! Error tailing file " ++ f ++ ", Error: " ++ e ++ "\n"

/-- strings.TrimRight(s, carriage-return): removes every trailing
carriage-return character. -/
def trimRightCR (s : String) : String :=
  String.mk ((s.data.reverse.dropWhile (fun c => c == '\r')).reverse)

/-- Spec-side definition, following the words of the claim for comparison:
strip exactly one trailing carriage-return character when one is present. -/
def specStripSingleCR (s : String) : String :=
  if s.data.getLast? = some '\r' then String.mk s.data.dropLast else s

/-- One iteration of the receiver loop body, for one delivered line:
report delivery errors; otherwise trim trailing carriage returns, parse
(reporting parse errors and in that case leaving firstLine untouched:
the assignment firstLine = false sits after the error continue), and on
success tag every metric with path = filename and forward it. -/
def receiverLine (parser : Parser) (filename : String)
    (st : RecvState) (line : TailLine) : RecvState :=
  match line.err with
  | some e =>
    { st with errors := st.errors ++ [tailingErrMsg filename e] }
  | none =>
    match parseLine parser (trimRightCR line.text) st.firstLine with
    | .error e =>
      { st with errors := st.errors ++ [malformedErrMsg filename line.text e] }
    | .ok ms =>
      { st with
        firstLine := false,
        metrics := st.metrics ++ ms.map (fun m => m.addTag "path" filename) }

/-- The receiver goroutine: consume the sequence of delivered lines, then
report the tailer terminal error when there is one. -/
def receiver (parser : Parser) (filename : String)
    (lines : List TailLine) (terminalErr : Option String) : RecvState :=
  let st := lines.foldl (receiverLine parser filename) initRecvState
  match terminalErr with
  | some e => { st with errors := st.errors ++ [fatalErrMsg filename e] }
  | none => st

/-- tail.SeekInfo. -/
structure SeekInfo where
  whence : Nat
  offset : Int
deriving DecidableEq

/-- tail.Config as filled in by tailNewFiles. -/
structure TailFileConfig where
  reOpen : Bool
  follow : Bool
  location : Option SeekInfo
  mustExist : Bool
  poll : Bool
  pipe : Bool
deriving DecidableEq

/-- The configuration fields of the Tail struct. -/
structure Tail where
  Files : List String
  FromBeginning : Bool
  Pipe : Bool
  WatchMethod : String
deriving DecidableEq

/-- One goroutine spawned by tailNewFiles: the tailed file, the parser it
received (none embeds the nil parser the source passes on along after a
parser-factory error) and the tail.Config the follower was opened with. -/
structure SpawnEntry (π : Type) where
  file : String
  parser : Option π
  config : TailFileConfig
deriving DecidableEq

/-- The mutable state of the Tail manager: the keys of the tailers map,
the accumulator errors, the spawned consumer goroutines, the followers
that received Stop and Cleanup, and the WaitGroup counter. -/
structure TailState (π : Type) where
  tailers : List String
  errors : List String
  spawned : List (SpawnEntry π)
  stopped : List String
  cleaned : List String
  runningTasks : Nat
deriving DecidableEq

variable {π : Type}

def initState : TailState π :=
  { tailers := [], errors := [], spawned := [], stopped := [],
    cleaned := [], runningTasks := 0 }

/-- Modelled from the spec: the external collaborators of the tail plugin
that are not under src.  compile is internal/globpath.Compile, whose
contract per the spec is resolve(pattern) returning either the set of
matching absolute paths or a compile error, with no glob value in the
error case; openFile is tail.TailFile of the follower library (success
keyed by path and by the open configuration); parserFunc is the parser
factory t.parserFunc; stopTailer is tailer.Stop, returning some error or
none.  All are pure, so repeating a pass observes the same answers. -/
structure Env (π : Type) where
  compile : String → Except String (List String)
  openFile : String → TailFileConfig → Except String Unit
  parserFunc : Except String π
  stopTailer : String → Option String

def globCompileErrMsg (p e : String) : String :=
  "E! Error Glob " ++ p ++ " failed to compile, " ++ e

def parserCreateErrMsg (e : String) : String :=
  "error creating parser: " ++ e

def stopErrMsg (f : String) : String :=
  "E! Error stopping tail on file " ++ f ++ "\n"

/-- The seek computed at the top of tailNewFiles: seek to the current end
of file unless in pipe mode or asked to read from the beginning. -/
def seekOf (pipe fromBeginning : Bool) : Option SeekInfo :=
  if !pipe && !fromBeginning then some { whence := 2, offset := 0 } else none

/-- The tail.Config passed to TailFile by tailNewFiles. -/
def tailFileConfig (cfg : Tail) (fromBeginning : Bool) : TailFileConfig :=
  { reOpen := true, follow := true,
    location := seekOf cfg.Pipe fromBeginning,
    mustExist := true,
    poll := cfg.WatchMethod == "poll",
    pipe := cfg.Pipe }

/-- The per-file body of the discovery loop of tailNewFiles: skip files
already tailed; report open errors and move on; otherwise create the
parser (reporting a factory error but still proceeding with a nil
parser), add one to the WaitGroup, spawn the receiver goroutine and
record the tailer under its filename. -/
def processFile (cfg : Tail) (env : Env π) (fromBeginning : Bool)
    (st : TailState π) (file : String) : TailState π :=
  if file ∈ st.tailers then st
  else
    match env.openFile file (tailFileConfig cfg fromBeginning) with
    | .error e => { st with errors := st.errors ++ [e] }
    | .ok _ =>
      match env.parserFunc with
      | .error e =>
        { st with
          errors := st.errors ++ [parserCreateErrMsg e],
          runningTasks := st.runningTasks + 1,
          spawned := st.spawned ++
            [{ file := file, parser := none,
               config := tailFileConfig cfg fromBeginning }],
          tailers := st.tailers ++ [file] }
      | .ok p =>
        { st with
          runningTasks := st.runningTasks + 1,
          spawned := st.spawned ++
            [{ file := file, parser := some p,
               config := tailFileConfig cfg fromBeginning }],
          tailers := st.tailers ++ [file] }

/-- Outcome of running a Go function body: a normal return carrying the
final state and the returned error value, or a run-time crash (a nil
pointer dereference) carrying the state at the moment of the crash. -/
inductive RunResult (σ : Type) where
  | ret (st : σ) (err : Option String)
  | crash (st : σ)
deriving DecidableEq

def stateOf {σ : Type} : RunResult σ → σ
  | .ret st _ => st
  | .crash st => st

def isRetNil {σ : Type} : RunResult σ → Bool
  | .ret _ none => true
  | _ => false

/-- The pattern loop of tailNewFiles.  When a glob fails to compile the
source reports the error and, lacking a continue statement, immediately
calls Match on the glob value that does not exist in the error case
(modelled from the spec resolver contract), a nil dereference: the pass
crashes and later patterns are never processed.  When the glob compiles,
every matched file is processed and the loop moves to the next pattern;
at the end the function returns nil. -/
def tailNewFilesGo (cfg : Tail) (env : Env π) (fromBeginning : Bool)
    (pats : List String) (st : TailState π) : RunResult (TailState π) :=
  match pats with
  | [] => .ret st none
  | pat :: rest =>
    match env.compile pat with
    | .error e =>
      .crash { st with errors := st.errors ++ [globCompileErrMsg pat e] }
    | .ok matched =>
      tailNewFilesGo cfg env fromBeginning rest
        (matched.foldl (processFile cfg env fromBeginning) st)

def tailNewFiles (cfg : Tail) (env : Env π) (fromBeginning : Bool)
    (st : TailState π) : RunResult (TailState π) :=
  tailNewFilesGo cfg env fromBeginning cfg.Files st

/-- Start of the Tail plugin: fresh tailers map, then one discovery pass
honouring the FromBeginning option. -/
def Start (cfg : Tail) (env : Env π) : RunResult (TailState π) :=
  tailNewFiles cfg env cfg.FromBeginning initState

/-- Gather of the Tail plugin: a rescan pass, with fromBeginning passed
as the literal true. -/
def Gather (cfg : Tail) (env : Env π) (st : TailState π) :
    RunResult (TailState π) :=
  tailNewFiles cfg env true st

/-- One iteration of the first loop of Stop: stop the tailer and report
a failure to the accumulator without short-circuiting. -/
def stopStep (env : Env π) (s : TailState π) (f : String) : TailState π :=
  match env.stopTailer f with
  | some _ =>
    { s with stopped := s.stopped ++ [f], errors := s.errors ++ [stopErrMsg f] }
  | none => { s with stopped := s.stopped ++ [f] }

/-- One iteration of the second loop of Stop: release the follower's
watch resources. -/
def cleanStep (s : TailState π) (f : String) : TailState π :=
  { s with cleaned := s.cleaned ++ [f] }

/-- Stop of the Tail plugin: stop every tailer collecting per-file stop
errors, then Cleanup every tailer, then wg.Wait, which returns only once
every spawned consumer goroutine has called wg.Done and exited; the
WaitGroup counter is therefore zero when Stop returns. -/
def Stop (env : Env π) (st : TailState π) : TailState π :=
  let st1 := st.tailers.foldl (stopStep env) st
  let st2 := st1.tailers.foldl cleanStep st1
  { st2 with runningTasks := 0 }

/-- The tracked-population invariant TrackInv of the manager state: tailer keys
are distinct, spawned consumer tasks serve distinct files, and every
spawned task serves a tracked file. -/
def TrackInv (st : TailState π) : Prop :=
  st.tailers.Nodup ∧ (st.spawned.map SpawnEntry.file).Nodup ∧
    ∀ e ∈ st.spawned, e.file ∈ st.tailers

def exceptOk {ε α : Type} : Except ε α → Bool
  | .ok _ => true
  | .error _ => false

/-- A value scanned from one column of a sqlserver result row: the
interface value is either a string or some non-string value. -/
inductive SqlValue where
  | str (s : String)
  | int (n : Int)
  | boolean (b : Bool)
  | null
deriving DecidableEq

def SqlValue.isStr : SqlValue → Bool
  | .str _ => true
  | _ => false

/-- The record emitted by accRow through acc.AddFields. -/
structure SqlRecord where
  measurement : String
  tags : List (String × String)
  fields : List (String × SqlValue)
deriving DecidableEq

/-- The first classification loop of accRow, for one column: a string
value becomes a tag keyed by the column name unless the column is the
reserved measurement column; other values yield no tag. -/
def tagOfColumn : String × SqlValue → Option (String × String)
  | (h, SqlValue.str s) => if h = "measurement" then none else some (h, s)
  | _ => none

/-- accRow of the sqlserver plugin over one scanned row, given as the
column-name-to-value map.  Strings become tags except the reserved
measurement column, which names the record; in result-by-row mode the
single field is the value column, otherwise every non-string column
becomes a field. -/
def accRow (resultByRow : Bool) (row : List (String × SqlValue)) :
    SqlRecord :=
  let tags := row.filterMap tagOfColumn
  let measurement :=
    match row.lookup "measurement" with
    | some (SqlValue.str s) => s
    | _ => ""
  if resultByRow then
    { measurement := measurement, tags := tags,
      fields := [("value", (row.lookup "value").getD SqlValue.null)] }
  else
    { measurement := measurement, tags := tags,
      fields := row.filter (fun p => !p.2.isStr) }

/- Concrete fixtures used by counterexamples and witnesses. -/

def hdrMetric : Metric := { name := "hdr", tags := [] }

def lineMetric : Metric := { name := "line", tags := [] }

/-- A csv-style parser whose whole-buffer entry point rejects the text h
and accepts anything else. -/
def csvTestParser : Parser :=
  { isCsv := true,
    parse := fun s => if s == "h" then .error "bad header" else .ok [hdrMetric],
    parseLineF := fun _ => .ok (some lineMetric) }

/-- A parser that echoes its input as the metric name. -/
def echoParser : Parser :=
  { isCsv := false,
    parse := fun s => .ok [{ name := s, tags := [] }],
    parseLineF := fun _ => .ok none }

def cfg2 : Tail :=
  { Files := ["bad", "good"], FromBeginning := false, Pipe := false,
    WatchMethod := "" }

def env2 : Env Unit :=
  { compile := fun p =>
      if p == "bad" then .error "unexpected end of input" else .ok ["f1"],
    openFile := fun _ _ => .ok (),
    parserFunc := .ok (),
    stopTailer := fun _ => none }

def cfg5 : Tail :=
  { Files := ["p"], FromBeginning := false, Pipe := false, WatchMethod := "" }

def env5 : Env Unit :=
  { compile := fun _ => .ok ["f1"],
    openFile := fun _ _ => .ok (),
    parserFunc := .ok (),
    stopTailer := fun _ => none }

def cfgW : Tail :=
  { Files := ["p"], FromBeginning := true, Pipe := false, WatchMethod := "" }

def envOk : Env Unit :=
  { compile := fun _ => .ok ["f1"],
    openFile := fun _ _ => .ok (),
    parserFunc := .ok (),
    stopTailer := fun _ => none }

def envPerr : Env Unit :=
  { compile := fun _ => .ok ["f1"],
    openFile := fun _ _ => .ok (),
    parserFunc := .error "boom",
    stopTailer := fun _ => none }

/- Theorems. -/

/-- C1 counterexample: the claim that the first-line flag is cleared
after the first delivered line even when parsing it errors is false.
With the csv test parser the first line h fails to parse, the flag stays
true, and the second line x is again routed through the whole-buffer
header path, which emits hdrMetric rather than the per-line lineMetric. -/
theorem c1_counterexample :
    (receiver csvTestParser "a.log" [{ text := "h", err := none }] none).firstLine
        = true
    ∧ (receiver csvTestParser "a.log"
        [{ text := "h", err := none }, { text := "x", err := none }] none).metrics
        = [{ name := "hdr", tags := [("path", "a.log")] }] := by
  decide

/-- C1 (amended): the first-line flag of the receiver is cleared exactly
by a line that is delivered without error and parses successfully; a
delivery error or a parse error leaves it untouched, so a malformed
header is retried as a header on the next line. -/
theorem c1_firstLine_cleared_on_success (parser : Parser) (filename : String)
    (st : RecvState) (line : TailLine) :
    (receiverLine parser filename st line).firstLine = false
      ↔ (st.firstLine = false
          ∨ (line.err = none
              ∧ exceptOk (parseLine parser (trimRightCR line.text) st.firstLine)
                  = true)) := by
  unfold receiverLine
  cases hle : line.err with
  | some e => simp
  | none =>
    cases hp : parseLine parser (trimRightCR line.text) st.firstLine with
    | error e => simp [exceptOk]
    | ok ms => simp [exceptOk]

/-- C2: evaluation of the code at the failing input.  With the pattern
list consisting of the failing glob bad followed by the healthy glob
good (matching the openable file f1), the discovery pass reports the
compile error and then crashes on the glob value that does not exist in
the error case, so the pass aborts: good is never resolved and f1 is
never tracked, instead of the pass continuing with the remaining
patterns. -/
theorem c2_glob_failure_aborts_pass :
    tailNewFiles cfg2 env2 true (initState : TailState Unit)
      = RunResult.crash
          { tailers := [],
            errors := [globCompileErrMsg "bad" "unexpected end of input"],
            spawned := [], stopped := [], cleaned := [], runningTasks := 0 } := by
  decide

/-- C3 counterexample: the claim that exactly one trailing carriage
return is stripped is false.  On the raw line a followed by two carriage
returns the receiver hands the parser the bare text a (both carriage
returns stripped, observed through the echoing parser), while stripping
a single one would hand it a followed by one carriage return. -/
theorem c3_counterexample :
    (receiver echoParser "f" [{ text := "a\r\r", err := none }] none).metrics
        = [{ name := "a", tags := [("path", "f")] }]
    ∧ specStripSingleCR "a\r\r" = "a\r"
    ∧ ("a" : String) ≠ "a\r" := by
  decide

/-- C5 counterexample: the claim that a follower starts at offset zero
only if the from-beginning option is true also for rescan-created
followers is false.  With FromBeginning false and pipe mode off, the
follower spawned by Gather is opened with no seek location, hence at
offset zero, because Gather hard-codes fromBeginning to true. -/
theorem c5_counterexample :
    cfg5.FromBeginning = false ∧ cfg5.Pipe = false
    ∧ (stateOf (Gather cfg5 env5 (initState : TailState Unit))).spawned.map
        (fun e => e.config.location) = [none] := by
  decide

/-- C10 counterexample: the claim that Gather always returns nil for
every configuration and filesystem state is false: with a pattern whose
glob fails to compile the pass crashes on a nil dereference instead of
returning at all. -/
theorem c10_counterexample :
    isRetNil (Gather cfg2 env2 (initState : TailState Unit)) = false := by
  decide

/-- C3 (amended): the receiver strips the whole maximal run of trailing
carriage-return characters before parsing and alters nothing else: on a
text made of a part not ending in a carriage return followed by any
number of trailing carriage returns, trimRightCR returns exactly that
part. -/
theorem c3_trim_all_trailing_cr (r : List Char) (k : Nat)
    (h : r.getLast? ≠ some '\r') :
    trimRightCR (String.mk (r ++ List.replicate k '\r')) = String.mk r := by
  have hbase : List.dropWhile (fun c => c == '\r') r.reverse = r.reverse := by
    cases hr : r.reverse with
    | nil => rfl
    | cons a t =>
      have ha : a ≠ '\r' := by
        intro hae
        apply h
        rw [← List.head?_reverse, hr, hae]
        rfl
      rw [List.dropWhile_cons]
      simp [ha]
  have hdrop : ∀ n, List.dropWhile (fun c => c == '\r')
      (List.replicate n '\r' ++ r.reverse) = r.reverse := by
    intro n
    induction n with
    | zero => simpa using hbase
    | succ m ih =>
      rw [List.replicate_succ, List.cons_append, List.dropWhile_cons]
      simpa using ih
  unfold trimRightCR
  congr 1
  show ((r ++ List.replicate k '\r').reverse.dropWhile (fun c => c == '\r')).reverse = r
  rw [List.reverse_append, List.reverse_replicate, hdrop k, List.reverse_reverse]

/-- C3 witness: the amended trimming theorem applied at the concrete
text a followed by two carriage returns. -/
theorem c3_trim_all_trailing_cr_witness :
    (['a'] : List Char).getLast? ≠ some '\r'
    ∧ trimRightCR (String.mk (['a'] ++ List.replicate 2 '\r')) = String.mk ['a'] :=
  ⟨by decide, c3_trim_all_trailing_cr ['a'] 2 (by decide)⟩

/-- Every spawn entry recorded by one iteration of the discovery loop
either predates the iteration or carries the tail.Config computed from
the pass's fromBeginning argument. -/
theorem processFile_spawned_sub (cfg : Tail) (env : Env π) (fb : Bool)
    (st : TailState π) (f : String) :
    ∀ e ∈ (processFile cfg env fb st f).spawned,
      e ∈ st.spawned ∨ e.config = tailFileConfig cfg fb := by
  intro e he
  unfold processFile at he
  split at he
  · exact Or.inl he
  · split at he
    · exact Or.inl he
    · split at he <;>
      · rcases List.mem_append.mp he with h1 | h2
        · exact Or.inl h1
        · right
          simp only [List.mem_singleton] at h2
          rw [h2]

/-- Fold form of processFile_spawned_sub over a list of matched files. -/
theorem foldl_spawned_sub (cfg : Tail) (env : Env π) (fb : Bool)
    (files : List String) (st : TailState π) :
    ∀ e ∈ (files.foldl (processFile cfg env fb) st).spawned,
      e ∈ st.spawned ∨ e.config = tailFileConfig cfg fb := by
  induction files generalizing st with
  | nil => intro e he; exact Or.inl he
  | cons f rest ih =>
    intro e he
    rcases ih (processFile cfg env fb st f) e he with h1 | h2
    · exact processFile_spawned_sub cfg env fb st f e h1
    · exact Or.inr h2

/-- Pass form of processFile_spawned_sub, for both loop outcomes. -/
theorem passGo_spawned_sub (cfg : Tail) (env : Env π) (fb : Bool)
    (pats : List String) (st : TailState π) :
    ∀ e ∈ (stateOf (tailNewFilesGo cfg env fb pats st)).spawned,
      e ∈ st.spawned ∨ e.config = tailFileConfig cfg fb := by
  induction pats generalizing st with
  | nil => intro e he; exact Or.inl he
  | cons pat rest ih =>
    intro e he
    unfold tailNewFilesGo at he
    cases hc : env.compile pat with
    | error er =>
      rw [hc] at he
      exact Or.inl he
    | ok matched =>
      rw [hc] at he
      rcases ih _ e he with h1 | h2
      · exact foldl_spawned_sub cfg env fb matched st e h1
      · exact Or.inr h2

/-- C5 (amended): a follower spawned by Start is opened with no seek
location, hence at offset zero, exactly when pipe mode or the
from-beginning option is set (otherwise it seeks to the current end of
file); a follower newly spawned by a Gather rescan is always opened with
no seek location, the option notwithstanding, because Gather passes
fromBeginning as the literal true. -/
theorem c5_seek_locations (cfg : Tail) (env : Env π) :
    (∀ e ∈ (stateOf (Start cfg env)).spawned,
        (e.config.location = none ↔ (cfg.Pipe = true ∨ cfg.FromBeginning = true)))
    ∧ (∀ (st : TailState π), ∀ e ∈ (stateOf (Gather cfg env st)).spawned,
        e ∉ st.spawned → e.config.location = none) := by
  constructor
  · intro e he
    rcases passGo_spawned_sub cfg env cfg.FromBeginning cfg.Files initState e he
      with h1 | h2
    · simp [initState] at h1
    · rw [h2]
      show seekOf cfg.Pipe cfg.FromBeginning = none ↔ _
      unfold seekOf
      cases cfg.Pipe <;> cases cfg.FromBeginning <;> simp
  · intro st e he hnot
    rcases passGo_spawned_sub cfg env true cfg.Files st e he with h1 | h2
    · exact absurd h1 hnot
    · rw [h2]
      show seekOf cfg.Pipe true = none
      unfold seekOf
      simp

/-- C5 witness: the amended seek theorem applied to the concrete rescan
that discovers f1 under a configuration with FromBeginning true. -/
theorem c5_seek_locations_witness :
    ({ file := "f1", parser := some (), config := tailFileConfig cfgW true } :
        SpawnEntry Unit).config.location = none :=
  (c5_seek_locations cfgW envOk).2 initState
    { file := "f1", parser := some (), config := tailFileConfig cfgW true }
    (by decide) (by decide)

/-- The first Stop loop appends every tailer to the stopped list and one
collected error per tailer whose Stop call fails, touching nothing else. -/
theorem stopFold_eq (env : Env π) (l : List String) (s : TailState π) :
    l.foldl (stopStep env) s
      = { s with
          stopped := s.stopped ++ l,
          errors := s.errors ++
            (l.filter (fun f => (env.stopTailer f).isSome)).map stopErrMsg } := by
  induction l generalizing s with
  | nil => simp
  | cons f rest ih =>
    rw [List.foldl_cons, ih]
    cases hst : env.stopTailer f with
    | none => simp [stopStep, hst, List.filter_cons]
    | some e => simp [stopStep, hst, List.filter_cons]

/-- The second Stop loop appends every tailer to the cleaned list and
touches nothing else. -/
theorem cleanFold_eq (l : List String) (s : TailState π) :
    l.foldl cleanStep s = { s with cleaned := s.cleaned ++ l } := by
  induction l generalizing s with
  | nil => simp
  | cons f rest ih =>
    rw [List.foldl_cons, ih]
    simp [cleanStep]

/-- C6: Stop issues a stop to every tracked follower, collecting one
accumulator error per follower whose stop fails without short-circuiting
the remaining ones, then releases every follower's resources, and the
WaitGroup join leaves no consumer task running when Stop returns. -/
theorem c6_stop_complete (env : Env π) (st : TailState π) :
    Stop env st
      = { st with
          stopped := st.stopped ++ st.tailers,
          cleaned := st.cleaned ++ st.tailers,
          errors := st.errors ++
            (st.tailers.filter (fun f => (env.stopTailer f).isSome)).map stopErrMsg,
          runningTasks := 0 } := by
  simp only [Stop, stopFold_eq, cleanFold_eq]

/-- Looking up a key in a tag list whose earlier bindings of that key
were filtered out and to which the key was appended yields the appended
value. -/
theorem lookup_filter_append (l : List (String × String)) (k v : String) :
    List.lookup k (l.filter (fun p => p.1 != k) ++ [(k, v)]) = some v := by
  induction l with
  | nil => simp [List.lookup]
  | cons a t ih =>
    obtain ⟨a1, a2⟩ := a
    by_cases hak : a1 = k
    · simpa [List.filter_cons, hak] using ih
    · have h1 : (a1 != k) = true := by simpa using hak
      have h2 : (k == a1) = false := by simpa using Ne.symm hak
      simpa [List.filter_cons, h1, List.lookup, h2] using ih

/-- AddTag establishes its binding. -/
theorem lookup_addTag (m : Metric) (k v : String) :
    (m.addTag k v).tags.lookup k = some v := by
  unfold Metric.addTag
  exact lookup_filter_append m.tags k v

/-- Every metric held by the accumulator state carries the path tag if
every metric already there did: invariant of the receiver loop. -/
theorem recv_foldl_path (parser : Parser) (filename : String)
    (lines : List TailLine) (st : RecvState)
    (h : ∀ m ∈ st.metrics, m.tags.lookup "path" = some filename) :
    ∀ m ∈ (lines.foldl (receiverLine parser filename) st).metrics,
      m.tags.lookup "path" = some filename := by
  induction lines generalizing st with
  | nil => exact h
  | cons l rest ih =>
    apply ih
    intro m hm
    unfold receiverLine at hm
    split at hm
    · exact h m hm
    · split at hm
      · exact h m hm
      · rcases List.mem_append.mp hm with h1 | h2
        · exact h m h1
        · obtain ⟨m0, hm0, rfl⟩ := List.mem_map.mp h2
          exact lookup_addTag m0 "path" filename

/-- C7: every metric the receiver forwards to the accumulator carries a
path tag bound to the tailed file's name; no metric reaches the
accumulator without it. -/
theorem c7_path_tag (parser : Parser) (filename : String)
    (lines : List TailLine) (terminalErr : Option String) :
    ∀ m ∈ (receiver parser filename lines terminalErr).metrics,
      m.tags.lookup "path" = some filename := by
  intro m hm
  unfold receiver at hm
  cases terminalErr with
  | some e =>
    exact recv_foldl_path parser filename lines initRecvState
      (by intro m0 hm0; exact absurd hm0 (List.not_mem_nil m0)) m hm
  | none =>
    exact recv_foldl_path parser filename lines initRecvState
      (by intro m0 hm0; exact absurd hm0 (List.not_mem_nil m0)) m hm

/-- C7 witness: the path-tag theorem applied to the concrete run of the
echoing parser over one line. -/
theorem c7_path_tag_witness :
    ({ name := "a", tags := [("path", "f")] } : Metric).tags.lookup "path"
      = some "f" :=
  c7_path_tag echoParser "f" [{ text := "a", err := none }] none
    { name := "a", tags := [("path", "f")] } (by decide)

/-- C9: when the parser factory fails for a newly discovered file that
opened successfully, the discovery loop reports the factory error but
still spawns the consumer goroutine with the nil parser, still adds one
to the WaitGroup, and still records the file as tracked, instead of
skipping the file. -/
theorem c9_parser_error_still_tracks (cfg : Tail) (env : Env π) (fb : Bool)
    (st : TailState π) (f e : String)
    (h1 : f ∉ st.tailers)
    (h2 : env.openFile f (tailFileConfig cfg fb) = .ok ())
    (h3 : env.parserFunc = .error e) :
    f ∈ (processFile cfg env fb st f).tailers
    ∧ ({ file := f, parser := none, config := tailFileConfig cfg fb } :
          SpawnEntry π) ∈ (processFile cfg env fb st f).spawned
    ∧ parserCreateErrMsg e ∈ (processFile cfg env fb st f).errors
    ∧ (processFile cfg env fb st f).runningTasks = st.runningTasks + 1 := by
  unfold processFile
  rw [if_neg h1, h2, h3]
  exact ⟨by simp, by simp, by simp, rfl⟩

/-- C9 witness: the nil-parser theorem applied to the concrete
environment whose parser factory fails. -/
theorem c9_parser_error_still_tracks_witness :
    ({ file := "f1", parser := none, config := tailFileConfig cfgW true } :
        SpawnEntry Unit) ∈ (processFile cfgW envPerr true initState "f1").spawned :=
  (c9_parser_error_still_tracks cfgW envPerr true initState "f1" "boom"
    (by decide) rfl rfl).2.1

/-- A discovery pass that returns always returns the nil error, because
the only return statement of tailNewFiles is the final return nil. -/
theorem passGo_ret_err_none (cfg : Tail) (env : Env π) (fb : Bool)
    (pats : List String) (st st1 : TailState π) (e : Option String) :
    tailNewFilesGo cfg env fb pats st = .ret st1 e → e = none := by
  induction pats generalizing st with
  | nil =>
    intro h
    unfold tailNewFilesGo at h
    injection h with h1 h2
    exact h2.symm
  | cons pat rest ih =>
    intro h
    unfold tailNewFilesGo at h
    cases hc : env.compile pat with
    | error er => rw [hc] at h; exact RunResult.noConfusion h
    | ok matched => rw [hc] at h; exact ih _ h

/-- When every pattern compiles, the discovery pass completes and
returns the nil error. -/
theorem passGo_all_ok_ret (cfg : Tail) (env : Env π) (fb : Bool)
    (pats : List String) (st : TailState π)
    (h : ∀ p ∈ pats, ∃ fs, env.compile p = .ok fs) :
    ∃ st1, tailNewFilesGo cfg env fb pats st = .ret st1 none := by
  induction pats generalizing st with
  | nil => exact ⟨st, rfl⟩
  | cons pat rest ih =>
    obtain ⟨fs, hfs⟩ := h pat (by simp)
    unfold tailNewFilesGo
    rw [hfs]
    exact ih _ (fun p hp => h p (by simp [hp]))

/-- C10 (amended): whenever Start or Gather returns, the returned error
value is nil — follower-open failures and parser-creation failures are
reported only through the accumulator — and when every configured
pattern compiles they do return; a glob-compile failure, however, makes
the pass crash instead of returning at all. -/
theorem c10_return_nil (cfg : Tail) (env : Env π) (st : TailState π) :
    (∀ st1 e, Start cfg env = .ret st1 e → e = none)
    ∧ (∀ st1 e, Gather cfg env st = .ret st1 e → e = none)
    ∧ ((∀ p ∈ cfg.Files, ∃ fs, env.compile p = .ok fs) →
        (∃ st1, Start cfg env = .ret st1 none)
        ∧ (∃ st1, Gather cfg env st = .ret st1 none)) := by
  refine ⟨?_, ?_, ?_⟩
  · intro st1 e h
    exact passGo_ret_err_none cfg env cfg.FromBeginning cfg.Files initState st1 e h
  · intro st1 e h
    exact passGo_ret_err_none cfg env true cfg.Files st st1 e h
  · intro hall
    exact ⟨passGo_all_ok_ret cfg env cfg.FromBeginning cfg.Files initState hall,
           passGo_all_ok_ret cfg env true cfg.Files st hall⟩

/-- C10 witness: the amended return theorem applied to the concrete
healthy environment. -/
theorem c10_return_nil_witness :
    (∃ st1, Start cfgW envOk = RunResult.ret st1 none)
    ∧ (∃ st1, Gather cfgW envOk (initState : TailState Unit)
        = RunResult.ret st1 none) :=
  (c10_return_nil cfgW envOk initState).2.2 (fun _ _ => ⟨["f1"], rfl⟩)

/-- One discovery-loop iteration either leaves the tracked set and the
spawn list unchanged, or (only when the file was not yet tracked)
appends the file to the tracked set and exactly one consumer task for it
to the spawn list. -/
theorem processFile_chars (cfg : Tail) (env : Env π) (fb : Bool)
    (st : TailState π) (f : String) :
    ((processFile cfg env fb st f).tailers = st.tailers
      ∧ (processFile cfg env fb st f).spawned = st.spawned)
    ∨ (f ∉ st.tailers
      ∧ ∃ pe : Option π,
          (processFile cfg env fb st f).tailers = st.tailers ++ [f]
          ∧ (processFile cfg env fb st f).spawned
              = st.spawned ++
                  [{ file := f, parser := pe,
                     config := tailFileConfig cfg fb }]) := by
  unfold processFile
  split
  · exact Or.inl ⟨rfl, rfl⟩
  next hf =>
    split
    · exact Or.inl ⟨rfl, rfl⟩
    · split
      · exact Or.inr ⟨hf, none, rfl, rfl⟩
      · rename_i p heq
        exact Or.inr ⟨hf, some p, rfl, rfl⟩

/-- The tracked set only grows across one discovery-loop iteration. -/
theorem processFile_mem_mono (cfg : Tail) (env : Env π) (fb : Bool)
    (st : TailState π) (f x : String) (hx : x ∈ st.tailers) :
    x ∈ (processFile cfg env fb st f).tailers := by
  rcases processFile_chars cfg env fb st f with ⟨h1, _⟩ | ⟨_, pe, h1, _⟩ <;> rw [h1]
  · exact hx
  · exact List.mem_append_left _ hx

/-- After its own discovery-loop iteration a file is tracked unless its
open failed. -/
theorem processFile_covered_self (cfg : Tail) (env : Env π) (fb : Bool)
    (st : TailState π) (f : String) :
    f ∈ (processFile cfg env fb st f).tailers
    ∨ ∃ e, env.openFile f (tailFileConfig cfg fb) = .error e := by
  by_cases hf : f ∈ st.tailers
  · exact Or.inl (processFile_mem_mono cfg env fb st f f hf)
  · unfold processFile
    rw [if_neg hf]
    cases hof : env.openFile f (tailFileConfig cfg fb) with
    | error e => exact Or.inr ⟨e, rfl⟩
    | ok u =>
      left
      cases u
      cases env.parserFunc <;> simp

/-- A discovery-loop iteration over an already tracked or unopenable
file changes neither the tracked set nor the spawn list. -/
theorem processFile_noop (cfg : Tail) (env : Env π) (fb : Bool)
    (st : TailState π) (f : String)
    (h : f ∈ st.tailers ∨ ∃ e, env.openFile f (tailFileConfig cfg fb) = .error e) :
    (processFile cfg env fb st f).tailers = st.tailers
    ∧ (processFile cfg env fb st f).spawned = st.spawned := by
  unfold processFile
  split
  · exact ⟨rfl, rfl⟩
  next hf =>
    rcases h with h | ⟨e, he⟩
    · exact absurd h hf
    · rw [he]
      exact ⟨rfl, rfl⟩

/-- One discovery-loop iteration preserves the tracked-population
invariant. -/
theorem processFile_TrackInv (cfg : Tail) (env : Env π) (fb : Bool)
    (st : TailState π) (f : String) (h : TrackInv st) :
    TrackInv (processFile cfg env fb st f) := by
  rcases processFile_chars cfg env fb st f with ⟨h1, h2⟩ | ⟨hf, pe, h1, h2⟩
  · unfold TrackInv at *
    rw [h1, h2]
    exact h
  · obtain ⟨hnd, hsp, hserve⟩ := h
    unfold TrackInv
    rw [h1, h2]
    refine ⟨?_, ?_, ?_⟩
    · exact List.nodup_append.mpr
        ⟨hnd, List.nodup_singleton f, by simpa using hf⟩
    · have hfn : f ∉ st.spawned.map SpawnEntry.file := by
        intro hmem
        obtain ⟨e0, he0, hfe⟩ := List.mem_map.mp hmem
        exact hf (hfe ▸ hserve e0 he0)
      rw [List.map_append]
      exact List.nodup_append.mpr
        ⟨hsp, by simp, by simpa using hfn⟩
    · intro e he
      rcases List.mem_append.mp he with h1' | h2'
      · exact List.mem_append_left _ (hserve e h1')
      · simp only [List.mem_singleton] at h2'
        rw [h2']
        simp

/-- The tracked set only grows across the fold over one pattern's
matches. -/
theorem foldl_mem_mono (cfg : Tail) (env : Env π) (fb : Bool)
    (files : List String) (st : TailState π) (x : String)
    (hx : x ∈ st.tailers) :
    x ∈ (files.foldl (processFile cfg env fb) st).tailers := by
  induction files generalizing st with
  | nil => exact hx
  | cons f rest ih =>
    exact ih (processFile cfg env fb st f)
      (processFile_mem_mono cfg env fb st f x hx)

/-- The fold over one pattern's matches preserves the
tracked-population invariant. -/
theorem foldl_TrackInv (cfg : Tail) (env : Env π) (fb : Bool)
    (files : List String) (st : TailState π) (h : TrackInv st) :
    TrackInv (files.foldl (processFile cfg env fb) st) := by
  induction files generalizing st with
  | nil => exact h
  | cons f rest ih =>
    exact ih (processFile cfg env fb st f)
      (processFile_TrackInv cfg env fb st f h)

/-- After the fold over one pattern's matches, every matched file is
tracked unless its open failed. -/
theorem foldl_covered_self (cfg : Tail) (env : Env π) (fb : Bool)
    (files : List String) (st : TailState π) :
    ∀ f ∈ files, f ∈ (files.foldl (processFile cfg env fb) st).tailers
      ∨ ∃ e, env.openFile f (tailFileConfig cfg fb) = .error e := by
  induction files generalizing st with
  | nil => intro f hf; exact absurd hf (List.not_mem_nil f)
  | cons g rest ih =>
    intro f hf
    rcases List.mem_cons.mp hf with rfl | hf'
    · rcases processFile_covered_self cfg env fb st f with h1 | h2
      · exact Or.inl (foldl_mem_mono cfg env fb rest _ f h1)
      · exact Or.inr h2
    · exact ih (processFile cfg env fb st g) f hf'

/-- The fold over matches that are all already tracked or unopenable
changes neither the tracked set nor the spawn list. -/
theorem foldl_noop (cfg : Tail) (env : Env π) (fb : Bool)
    (files : List String) (st : TailState π)
    (h : ∀ f ∈ files, f ∈ st.tailers
        ∨ ∃ e, env.openFile f (tailFileConfig cfg fb) = .error e) :
    (files.foldl (processFile cfg env fb) st).tailers = st.tailers
    ∧ (files.foldl (processFile cfg env fb) st).spawned = st.spawned := by
  induction files generalizing st with
  | nil => exact ⟨rfl, rfl⟩
  | cons g rest ih =>
    have hg := h g (by simp)
    have hnoop := processFile_noop cfg env fb st g hg
    have hrest : ∀ f ∈ rest, f ∈ (processFile cfg env fb st g).tailers
        ∨ ∃ e, env.openFile f (tailFileConfig cfg fb) = .error e := by
      intro f hf
      rcases h f (by simp [hf]) with h1 | h2
      · exact Or.inl (by rw [hnoop.1]; exact h1)
      · exact Or.inr h2
    obtain ⟨t1, s1⟩ := ih (processFile cfg env fb st g) hrest
    exact ⟨t1.trans hnoop.1, s1.trans hnoop.2⟩

/-- The tracked set only grows across a completed discovery pass. -/
theorem passGo_mem_mono (cfg : Tail) (env : Env π) (fb : Bool)
    (pats : List String) (st st1 : TailState π) (x : String)
    (h : tailNewFilesGo cfg env fb pats st = .ret st1 none)
    (hx : x ∈ st.tailers) : x ∈ st1.tailers := by
  induction pats generalizing st with
  | nil =>
    unfold tailNewFilesGo at h
    injection h with h1 h2
    rw [← h1]
    exact hx
  | cons pat rest ih =>
    unfold tailNewFilesGo at h
    cases hc : env.compile pat with
    | error e => rw [hc] at h; exact RunResult.noConfusion h
    | ok matched =>
      rw [hc] at h
      exact ih _ h (foldl_mem_mono cfg env fb matched st x hx)

/-- A discovery pass preserves the tracked-population invariant, whether
it returns or crashes on a failed glob. -/
theorem passGo_TrackInv (cfg : Tail) (env : Env π) (fb : Bool)
    (pats : List String) (st : TailState π) (h : TrackInv st) :
    TrackInv (stateOf (tailNewFilesGo cfg env fb pats st)) := by
  induction pats generalizing st with
  | nil => exact h
  | cons pat rest ih =>
    unfold tailNewFilesGo
    cases hc : env.compile pat with
    | error e => exact h
    | ok matched => exact ih _ (foldl_TrackInv cfg env fb matched st h)

/-- After a completed discovery pass every pattern compiled and every
file it matched is either tracked in the final state or unopenable. -/
theorem passGo_coverage (cfg : Tail) (env : Env π) (fb : Bool)
    (pats : List String) (st st1 : TailState π)
    (h : tailNewFilesGo cfg env fb pats st = .ret st1 none) :
    ∀ p ∈ pats, ∃ fs, env.compile p = .ok fs
      ∧ ∀ f ∈ fs, f ∈ st1.tailers
          ∨ ∃ e, env.openFile f (tailFileConfig cfg fb) = .error e := by
  induction pats generalizing st with
  | nil => intro p hp; exact absurd hp (List.not_mem_nil p)
  | cons pat rest ih =>
    unfold tailNewFilesGo at h
    cases hc : env.compile pat with
    | error e => rw [hc] at h; exact RunResult.noConfusion h
    | ok matched =>
      rw [hc] at h
      intro p hp
      rcases List.mem_cons.mp hp with rfl | hp'
      · refine ⟨matched, hc, ?_⟩
        intro f hf
        rcases foldl_covered_self cfg env fb matched st f hf with h1 | h2
        · exact Or.inl (passGo_mem_mono cfg env fb rest _ st1 f h h1)
        · exact Or.inr h2
      · exact ih _ h p hp'

/-- A discovery pass whose patterns all compile and whose matches are
all already tracked or unopenable returns nil and changes neither the
tracked set nor the spawn list: no duplicate followers, no duplicate
consumer tasks. -/
theorem passGo_noop (cfg : Tail) (env : Env π) (fb : Bool)
    (pats : List String) (T : List String)
    (hcov : ∀ p ∈ pats, ∃ fs, env.compile p = .ok fs
      ∧ ∀ f ∈ fs, f ∈ T
          ∨ ∃ e, env.openFile f (tailFileConfig cfg fb) = .error e) :
    ∀ s : TailState π, s.tailers = T →
      ∃ s2, tailNewFilesGo cfg env fb pats s = .ret s2 none
        ∧ s2.tailers = s.tailers ∧ s2.spawned = s.spawned := by
  induction pats with
  | nil => intro s hs; exact ⟨s, rfl, rfl, rfl⟩
  | cons pat rest ih =>
    intro s hs
    obtain ⟨fs, hfs, hcv⟩ := hcov pat (by simp)
    have hcov' : ∀ f ∈ fs, f ∈ s.tailers
        ∨ ∃ e, env.openFile f (tailFileConfig cfg fb) = .error e := by
      intro f hf
      rcases hcv f hf with h1 | h2
      · exact Or.inl (by rw [hs]; exact h1)
      · exact Or.inr h2
    obtain ⟨ht, hsp⟩ := foldl_noop cfg env fb fs s hcov'
    obtain ⟨s2, h2, ht2, hs2⟩ :=
      ih (fun p hp => hcov p (by simp [hp]))
        (fs.foldl (processFile cfg env fb) s) (ht.trans hs)
    refine ⟨s2, ?_, ht2.trans ht, hs2.trans hsp⟩
    unfold tailNewFilesGo
    rw [hfs]
    exact h2

/-- C4: a discovery pass from any state satisfying the
tracked-population invariant preserves it — at most one tracked entry
and at most one consumer task per distinct resolved path — and
repeating a completed pass with the environment unchanged adds no
follower and spawns no consumer task. -/
theorem c4_unique_tracking (cfg : Tail) (env : Env π) (fb : Bool)
    (st : TailState π) (h : TrackInv st) :
    TrackInv (stateOf (tailNewFiles cfg env fb st))
    ∧ ∀ st1, tailNewFiles cfg env fb st = .ret st1 none →
        ∃ st2, tailNewFiles cfg env fb st1 = .ret st2 none
          ∧ st2.tailers = st1.tailers ∧ st2.spawned = st1.spawned := by
  constructor
  · exact passGo_TrackInv cfg env fb cfg.Files st h
  · intro st1 h1
    have hcov := passGo_coverage cfg env fb cfg.Files st st1 h1
    exact passGo_noop cfg env fb cfg.Files st1.tailers hcov st1 rfl

/-- C4 witness: the uniqueness and idempotence theorem applied to the
concrete healthy environment from the empty initial state. -/
theorem c4_unique_tracking_witness :
    TrackInv (stateOf (tailNewFiles cfgW envOk true (initState : TailState Unit))) :=
  (c4_unique_tracking cfgW envOk true initState
    ⟨List.nodup_nil, List.nodup_nil,
     fun e he => absurd he (List.not_mem_nil e)⟩).1

/-- Characterization of the per-column tag rule: it yields a tag exactly
for a string-valued column whose name is not the reserved measurement
key, and the tag repeats the column name and the string value. -/
theorem tagOfColumn_eq_some (a : String × SqlValue) (b : String × String)
    (h : tagOfColumn a = some b) :
    a = (b.1, SqlValue.str b.2) ∧ b.1 ≠ "measurement" := by
  obtain ⟨a1, a2⟩ := a
  cases a2 with
  | str s =>
    by_cases hm : a1 = "measurement"
    · simp [tagOfColumn, hm] at h
    · simp only [tagOfColumn, if_neg hm] at h
      injection h with hb
      rw [← hb]
      exact ⟨rfl, hm⟩
  | int n => simp [tagOfColumn] at h
  | boolean x => simp [tagOfColumn] at h
  | null => simp [tagOfColumn] at h

/-- In a row with distinct column names, lookup finds the value bound
to a key. -/
theorem lookup_of_nodup {β : Type} (l : List (String × β))
    (hnd : (l.map Prod.fst).Nodup) (k : String) (v : β)
    (hm : (k, v) ∈ l) : List.lookup k l = some v := by
  induction l with
  | nil => exact absurd hm (List.not_mem_nil _)
  | cons a t ih =>
    obtain ⟨a1, a2⟩ := a
    have hnd' : a1 ∉ t.map Prod.fst ∧ (t.map Prod.fst).Nodup := by
      simpa [List.nodup_cons] using hnd
    rcases List.mem_cons.mp hm with heq | hmem
    · obtain ⟨h1, h2⟩ := Prod.mk.injEq .. |>.mp heq
      subst h1
      subst h2
      simp [List.lookup]
    · have hk : k ∈ t.map Prod.fst := List.mem_map.mpr ⟨(k, v), hmem, rfl⟩
      have hne : (k == a1) = false := by
        rw [beq_eq_false_iff_ne]
        intro hkeq
        exact hnd'.1 (hkeq ▸ hk)
      simp only [List.lookup, hne]
      exact ih hnd'.2 hmem

/-- In a row with distinct column names, a key binds at most one value. -/
theorem key_inj_of_nodup {β : Type} (l : List (String × β))
    (hnd : (l.map Prod.fst).Nodup) (k : String) (a b : β)
    (ha : (k, a) ∈ l) (hb : (k, b) ∈ l) : a = b :=
  Option.some.inj
    ((lookup_of_nodup l hnd k a ha).symm.trans (lookup_of_nodup l hnd k b hb))

/-- C8: in the non-result-by-row mode, accRow classifies every scanned
column of a row with distinct column names as follows: a string value
becomes a tag keyed by the column name, except the measurement column,
whose string value becomes the record's measurement name and appears
neither among the tags nor among the fields; every non-string value
becomes a field and contributes no tag. -/
theorem c8_row_classification (row : List (String × SqlValue))
    (hnd : (row.map Prod.fst).Nodup) (h : String) (v : SqlValue)
    (hmem : (h, v) ∈ row) :
    (∀ s, v = SqlValue.str s →
       (h = "measurement" →
          (accRow false row).measurement = s
          ∧ h ∉ (accRow false row).tags.map Prod.fst
          ∧ h ∉ (accRow false row).fields.map Prod.fst)
       ∧ (h ≠ "measurement" →
          (h, s) ∈ (accRow false row).tags
          ∧ h ∉ (accRow false row).fields.map Prod.fst))
    ∧ (v.isStr = false →
        (h, v) ∈ (accRow false row).fields
        ∧ h ∉ (accRow false row).tags.map Prod.fst) := by
  have htags : (accRow false row).tags = row.filterMap tagOfColumn := rfl
  have hfields : (accRow false row).fields
      = row.filter (fun p => !p.2.isStr) := rfl
  have tagKey : ∀ x, x ∈ (accRow false row).tags.map Prod.fst →
      ∃ s2, (x, SqlValue.str s2) ∈ row ∧ x ≠ "measurement" := by
    intro x hx
    rw [htags] at hx
    obtain ⟨b, hb, hbx⟩ := List.mem_map.mp hx
    obtain ⟨a, ha, hfa⟩ := List.mem_filterMap.mp hb
    obtain ⟨hae, hbm⟩ := tagOfColumn_eq_some a b hfa
    subst hbx
    rw [hae] at ha
    exact ⟨b.2, ha, hbm⟩
  have fieldKey : ∀ x, x ∈ (accRow false row).fields.map Prod.fst →
      ∃ v2, (x, v2) ∈ row ∧ v2.isStr = false := by
    intro x hx
    rw [hfields] at hx
    obtain ⟨p, hp, hpx⟩ := List.mem_map.mp hx
    obtain ⟨hpr, hps⟩ := List.mem_filter.mp hp
    subst hpx
    exact ⟨p.2, hpr, by simpa using hps⟩
  constructor
  · intro s hv
    subst hv
    constructor
    · intro hm
      subst hm
      refine ⟨?_, ?_, ?_⟩
      · have hl := lookup_of_nodup row hnd "measurement" (SqlValue.str s) hmem
        have hme : (accRow false row).measurement
            = match List.lookup "measurement" row with
              | some (SqlValue.str s2) => s2
              | _ => "" := rfl
        rw [hme, hl]
      · intro hx
        obtain ⟨s2, _, hne⟩ := tagKey "measurement" hx
        exact hne rfl
      · intro hx
        obtain ⟨v2, hv2, hvs⟩ := fieldKey "measurement" hx
        have hvv := key_inj_of_nodup row hnd "measurement"
          (SqlValue.str s) v2 hmem hv2
        rw [← hvv] at hvs
        simp [SqlValue.isStr] at hvs
    · intro hm
      constructor
      · rw [htags]
        refine List.mem_filterMap.mpr ⟨(h, SqlValue.str s), hmem, ?_⟩
        simp [tagOfColumn, hm]
      · intro hx
        obtain ⟨v2, hv2, hvs⟩ := fieldKey h hx
        have hvv := key_inj_of_nodup row hnd h (SqlValue.str s) v2 hmem hv2
        rw [← hvv] at hvs
        simp [SqlValue.isStr] at hvs
  · intro hvs
    constructor
    · rw [hfields]
      refine List.mem_filter.mpr ⟨hmem, ?_⟩
      simp [hvs]
    · intro hx
      obtain ⟨s2, hs2, _⟩ := tagKey h hx
      have hvv := key_inj_of_nodup row hnd h v (SqlValue.str s2) hmem hs2
      rw [hvv] at hvs
      simp [SqlValue.isStr] at hvs

/-- C8 witness: the classification theorem applied to a concrete
three-column row. -/
theorem c8_row_classification_witness :
    ("host", "h1") ∈ (accRow false
      [("measurement", SqlValue.str "m"), ("host", SqlValue.str "h1"),
        ("val", SqlValue.int 3)]).tags :=
  (((c8_row_classification
      [("measurement", SqlValue.str "m"), ("host", SqlValue.str "h1"),
        ("val", SqlValue.int 3)]
      (by decide) "host" (SqlValue.str "h1") (by decide)).1
      "h1" rfl).2 (by decide)).1
